import Mathlib

/-!
Verification development for the valora composition pipeline.

The definitions below are a shallow embedding of `rainier/src/gpu.rs` and
`src/geom/point.rs`:

* f32 scalar payloads that the structural claims never compute with
  (colors, uniform payloads, vertex positions) are modelled by their exact
  rational value; IEEE-754 rounding is out of scope here.
* `Result<T>` is modelled by `Except String T`.
* `Rc<Program>` is modelled by an opaque handle (`Nat`): clones of the
  handle denote the same shared program.
* `random()` (the id stamp of a shader) is modelled by an explicitly
  supplied fresh token.
* The external rasterizer `raster_path` is a black box and is therefore a
  parameter of every operation that invokes it.
-/

namespace Valora

/-- Exact model of an f32 scalar payload.  The claims proved below only move
these values around; no f32 arithmetic is performed on them. -/
abbrev F32 := ℚ

/-- RGBA color, `V4` in the source. -/
abbrev V4 := F32 × F32 × F32 × F32

/-- `lyon_path::Builder`, opaque to the compositor. -/
abbrev PathB := Nat

/-- `raster::Method`, opaque to the compositor. -/
abbrev Method := Nat

/-- `SampleDepth`, opaque to the compositor. -/
abbrev SampleDepth := Nat

/-- `glium::uniforms::UniformValue`: a tagged variant over the driver types.
Only `Float` is relevant to the core; the remaining variants pass through
untouched and are collapsed into one opaque constructor. -/
inductive UniformValue where
  | Float (x : F32)
  | otherVariant (tag : Nat)
deriving DecidableEq

/-- `UniformBuffer`: ordered association list of named uniform values
(`uniforms: Vec<(String, UniformValue)>` in the source). -/
structure UniformBuffer where
  uniforms : List (String × UniformValue)
deriving DecidableEq

instance : Inhabited UniformBuffer := ⟨⟨[]⟩⟩

/-- `UniformBuffer::push`: append a binding; no deduplication, no
reordering. -/
def UniformBuffer.push (b : UniformBuffer) (name : String) (value : UniformValue) :
    UniformBuffer :=
  ⟨b.uniforms ++ [(name, value)]⟩

/-- `Uniforms::visit_values` for `UniformBuffer`: iterate the bindings in
insertion order, invoking `f` on each name/value pair.  The `FnMut` callback
is modelled by threading an explicit state. -/
def UniformBuffer.visit_values {σ : Type} (b : UniformBuffer)
    (f : String → UniformValue → σ → σ) (s : σ) : σ :=
  b.uniforms.foldl (fun s p => f p.1 p.2 s) s

/-- The binding for `name` that the driver ultimately observes: the last
`(name, value)` pair in insertion order (glium applies bindings in visit
order, so the last one wins). -/
def UniformBuffer.lastBinding (b : UniformBuffer) (name : String) : Option UniformValue :=
  b.uniforms.reverse.lookup name

/-- `Shader`: opaque identity (`u64` stamped from `random()` at
construction), shared program reference, owned uniform buffer. -/
structure Shader where
  id : Nat
  program : Nat
  uniforms : UniformBuffer
deriving DecidableEq

/-- `#[derive(Clone)]` for `Shader`: copies the id, clones the `Rc` (the
same shared program handle), and deep-copies the uniform `Vec`. -/
def Shader.clone (s : Shader) : Shader :=
  { id := s.id, program := s.program, uniforms := ⟨s.uniforms.uniforms⟩ }

/-- `Element`, generic in the shader representation so that the
ownership-explicit model below can reuse it. -/
structure ElementG (S : Type) where
  path : PathB
  color : V4
  rasterMethod : Method
  shader : S
  sampleDepth : SampleDepth
deriving DecidableEq

/-- `Element`: the unit of composition. -/
abbrev Element := ElementG Shader

/-- `GpuVertex { vpos: [f32; 2], vcol: [f32; 4] }`. -/
structure GpuVertex where
  vpos : F32 × F32
  vcol : V4
deriving DecidableEq

/-- The external rasterizer `raster_path(path, method, color)`: a black box
producing a vertex array and a `u32` index array, or failing. -/
abbrev Raster := PathB → Method → V4 → Except String (List GpuVertex × List Nat)

/-- The call `raster_path(element.path, element.raster_method, element.color)`. -/
def rasterElement {S : Type} (raster : Raster) (e : ElementG S) :
    Except String (List GpuVertex × List Nat) :=
  raster e.path e.rasterMethod e.color

/-- `itertools::Itertools::group_by` keyed on a `Nat`: split a sequence into
maximal contiguous runs of elements with equal key.  Structurally recursive
so that concrete instances evaluate. -/
def group_by {α : Type} (key : α → Nat) : List α → List (List α)
  | [] => []
  | [a] => [[a]]
  | a :: b :: rest =>
    match group_by key (b :: rest) with
    | [] => [[a]]
    | r :: rs => if key a == key b then (a :: r) :: rs else [a] :: r :: rs

/-- The `u32` modulus: vertex counts are cast `as u32` in `build_buffers`
and index rebasing is `u32` addition. -/
def U32 : Nat := 2 ^ 32

/-- One step of the `try_fold` in `Gpu::build_buffers`: rasterize the
element, append its vertices, extend the indices with the new indices
rebased by the vertex count accumulated before this element, and return the
new vertex count. -/
def buildStep {S : Type} (raster : Raster) (acc : Nat × List GpuVertex × List Nat)
    (e : ElementG S) : Except String (Nat × List GpuVertex × List Nat) := do
  let (newVertices, newIndices) ← rasterElement raster e
  let (idx, vertices, indices) := acc
  let vertices := vertices ++ newVertices
  pure (vertices.length % U32, vertices,
        indices ++ newIndices.map (fun i => (i + idx) % U32))

/-- `Gpu::build_buffers`: fold the run into a single vertex array and index
array; returns `(index array, vertex array)` in the source's order.  The
GPU-side buffer upload is identity on the contents. -/
def build_buffers {S : Type} (raster : Raster) (elements : List (ElementG S)) :
    Except String (List Nat × List GpuVertex) := do
  let (_, vertices, indices) ← elements.foldlM (buildStep raster) (0, [], [])
  pure (indices, vertices)

/-- Spec-side: run `raster_path` over every element of the run, in order
(the concatenation baseline that batching must preserve). -/
def rasterAll {S : Type} (raster : Raster) :
    List (ElementG S) → Except String (List (List GpuVertex × List Nat))
  | [] => .ok []
  | e :: es => do
    let out ← rasterElement raster e
    let outs ← rasterAll raster es
    pure (out :: outs)

/-- Spec-side: the concatenation, in input order, of the per-element vertex
arrays. -/
def specMergedVertices (outs : List (List GpuVertex × List Nat)) : List GpuVertex :=
  (outs.map Prod.fst).flatten

/-- Spec-side: concatenation of the per-element index arrays, every index
increased by `base` plus the number of vertices accumulated before its
element. -/
def specMergedIndicesFrom (base : Nat) :
    List (List GpuVertex × List Nat) → List Nat
  | [] => []
  | out :: outs =>
    out.2.map (fun i => i + base) ++ specMergedIndicesFrom (base + out.1.length) outs

/-- Spec-side: the merged index array described by the spec. -/
def specMergedIndices (outs : List (List GpuVertex × List Nat)) : List Nat :=
  specMergedIndicesFrom 0 outs

/-- Number of vertices accumulated before the `k`-th element of the run. -/
def vertexOffset (outs : List (List GpuVertex × List Nat)) (k : Nat) : Nat :=
  (((outs.take k).map (fun o => o.1.length)).sum)

/-- Every raster output of the run contributes valid indices: each index is
an offset into its own vertex array. -/
def validOuts (outs : List (List GpuVertex × List Nat)) : Prop :=
  ∀ out ∈ outs, ∀ i ∈ out.2, i < out.1.length

/-- `glium::texture::UncompressedFloatFormat` (only the variant the core
allocates). -/
inductive UncompressedFloatFormat where
  | F32F32F32F32
deriving DecidableEq

/-- `glium::texture::MipmapsOption` (only the variant the core uses). -/
inductive MipmapsOption where
  | NoMipmap
deriving DecidableEq

/-- `Texture2dMultisample`: the off-screen draw target, recorded with the
allocation parameters `build_texture` passes to the driver. -/
structure Texture2dMultisample where
  format : UncompressedFloatFormat
  mipmaps : MipmapsOption
  width : Nat
  height : Nat
  samples : Nat
deriving DecidableEq

/-- `Gpu`: owns the headless context (opaque) and the default program. -/
structure Gpu where
  ctx : Nat
  program : Nat
deriving DecidableEq

/-- `Gpu::build_texture`: allocate a fresh RGBA-f32 multisample texture with
no mipmaps and `samples = 1`.  Driver allocation failure is out of scope. -/
def build_texture (width height : Nat) : Texture2dMultisample :=
  { format := .F32F32F32F32, mipmaps := .NoMipmap,
    width := width, height := height, samples := 1 }

/-- `Gpu::default_shader`: the default program with `width`/`height` uniforms
pre-populated; `random()` is modelled by the supplied fresh token. -/
def default_shader (g : Gpu) (freshId : Nat) (width height : F32) : Shader :=
  { id := freshId
  , program := g.program
  , uniforms := ⟨[("width", .Float width), ("height", .Float height)]⟩ }

/-- `Gpu::build_shader`: wrap a compiled program and uniforms with a fresh
id; `random()` is modelled by the supplied fresh token.  (The source wraps
the result in `Ok`; no failure path exists.) -/
def build_shader (g : Gpu) (freshId : Nat) (program : Nat)
    (uniforms : UniformBuffer) : Shader :=
  { id := freshId, program := program, uniforms := uniforms }

/-- One indexed draw call issued through `draw_to_texture` (`GpuCommand`
minus the texture, which is always the single target allocated at the top
of `precompose`). -/
structure Draw where
  vertices : List GpuVertex
  indices : List Nat
  program : Nat
  uniforms : UniformBuffer
deriving DecidableEq

/-- The body of `precompose`'s batch loop for one group: peek the first
element (the defensive empty-group branch prints and continues, producing no
draw), clone its shader, append the `width`/`height` uniforms to the clone,
fold the run into buffers and issue one draw. -/
def precompose_batch (raster : Raster) (width height : Nat) (batch : List Element) :
    Except String (Option Draw) :=
  match batch with
  | [] => pure none
  | first0 :: _ =>
    let first := first0.shader.clone
    let first := { first with uniforms := first.uniforms.push "width" (.Float (width : F32)) }
    let first := { first with uniforms := first.uniforms.push "height" (.Float (height : F32)) }
    do
      let (indices, vertices) ← build_buffers raster batch
      pure (some { vertices := vertices, indices := indices,
                   program := first.program, uniforms := first.uniforms })

/-- One iteration of the `for (_id, batch) in ...` loop, accumulating the
draw calls issued so far. -/
def precompose_step (raster : Raster) (width height : Nat) (draws : List Draw)
    (batch : List Element) : Except String (List Draw) := do
  match ← precompose_batch raster width height batch with
  | none => pure draws
  | some d => pure (draws ++ [d])

/-- `Gpu::precompose`: allocate the target, group the elements into
contiguous runs of equal `shader.id`, and issue one draw per run.  The
result pairs the returned texture with the ordered list of draw calls
issued against it (the model's observable effect trace: no other GPU
command is emitted, in particular no clear). -/
def precompose (raster : Raster) (width height : Nat) (elements : List Element) :
    Except String (Texture2dMultisample × List Draw) := do
  let texture := build_texture width height
  let draws ← (group_by (fun e => e.shader.id) elements).foldlM
    (precompose_step raster width height) []
  pure (texture, draws)

/-- The relation between a batch and the draw call it produces: the draw
uses the first element's shared program, its uniforms extended with the
`width`/`height` bindings appended after all caller-supplied ones, and the
buffers folded from the whole run. -/
def drawOfBatch (raster : Raster) (w h : Nat) (batch : List Element) (d : Draw) : Prop :=
  ∃ first rest, batch = first :: rest ∧
    d.program = first.shader.program ∧
    d.uniforms = ⟨first.shader.uniforms.uniforms ++
      [("width", UniformValue.Float (w : F32)), ("height", UniformValue.Float (h : F32))]⟩ ∧
    build_buffers raster batch = .ok (d.indices, d.vertices)

/-- Ownership-explicit heap for the frame claim: each live `Shader` value's
owned uniform `Vec` is one cell.  `derive(Clone)` deep-copies the `Vec`
into a fresh cell; an aliasing implementation (for example
`Rc<RefCell<UniformBuffer>>`) would instead return the same cell, which is
what the frame theorem below rules out for the source. -/
abbrev Store := List UniformBuffer

/-- Dereference a uniform-buffer cell. -/
def Store.read (st : Store) (r : Nat) : UniformBuffer := st.getD r ⟨[]⟩

/-- `Shader` under the store model: id and shared program by value, owned
uniform buffer by reference into the store. -/
structure ShaderRef where
  id : Nat
  program : Nat
  ub : Nat
deriving DecidableEq

/-- `Shader::clone` under the store model: copy the id, share the program,
allocate a fresh cell holding a copy of the uniform buffer. -/
def ShaderRef.cloneRef (st : Store) (s : ShaderRef) : Store × ShaderRef :=
  (st ++ [Store.read st s.ub], { s with ub := st.length })

/-- `precompose`'s batch body under the store model: the two
`first.uniforms.push` calls mutate exactly the cell allocated by the
clone. -/
def precompose_batch_st (raster : Raster) (width height : Nat) (st : Store)
    (batch : List (ElementG ShaderRef)) : Except String (Store × Option Draw) :=
  match batch with
  | [] => pure (st, none)
  | first0 :: _ =>
    let p := first0.shader.cloneRef st
    let st1 := p.1
    let first := p.2
    let st2 := st1.set first.ub ((Store.read st1 first.ub).push "width" (.Float (width : F32)))
    let st3 := st2.set first.ub ((Store.read st2 first.ub).push "height" (.Float (height : F32)))
    do
      let (indices, vertices) ← build_buffers raster batch
      pure (st3, some { vertices := vertices, indices := indices,
                        program := first.program, uniforms := Store.read st3 first.ub })

/-- One loop iteration of `precompose` under the store model. -/
def precompose_step_st (raster : Raster) (width height : Nat)
    (acc : Store × List Draw) (batch : List (ElementG ShaderRef)) :
    Except String (Store × List Draw) := do
  let (st, od) ← precompose_batch_st raster width height acc.1 batch
  match od with
  | none => pure (st, acc.2)
  | some d => pure (st, acc.2 ++ [d])

/-- `Gpu::precompose` under the store model, also returning the final
store so the caller's retained shaders can be inspected. -/
def precompose_st (raster : Raster) (width height : Nat) (st : Store)
    (elements : List (ElementG ShaderRef)) :
    Except String (Store × Texture2dMultisample × List Draw) := do
  let texture := build_texture width height
  let res ← (group_by (fun e => e.shader.id) elements).foldlM
    (precompose_step_st raster width height) (st, [])
  pure (res.1, texture, res.2)

/-- A rasterizer whose every output is empty geometry. -/
def rasterEmpty : Raster := fun _ _ _ => .ok ([], [])

/-- A rasterizer producing one red triangle for every path. -/
def rasterTri : Raster := fun _ _ _ =>
  .ok ([⟨(0, 0), (1, 0, 0, 1)⟩, ⟨(1, 0), (1, 0, 0, 1)⟩, ⟨(0, 1), (1, 0, 0, 1)⟩],
       [0, 1, 2])

/-- A concrete shader. -/
def sampleShaderA : Shader := { id := 1, program := 0, uniforms := ⟨[]⟩ }

/-- A concrete shader with a distinct id and a caller-bound `width`. -/
def sampleShaderB : Shader :=
  { id := 2, program := 0, uniforms := ⟨[("width", .Float 9)]⟩ }

/-- A concrete element using `sampleShaderA`. -/
def sampleElementA : Element :=
  { path := 0, color := (1, 0, 0, 1), rasterMethod := 0,
    shader := sampleShaderA, sampleDepth := 0 }

/-- A concrete element whose shader is a clone of `sampleShaderA` (same id). -/
def sampleElementA2 : Element :=
  { path := 1, color := (0, 1, 0, 1), rasterMethod := 0,
    shader := sampleShaderA.clone, sampleDepth := 0 }

/-- A concrete element using `sampleShaderB`. -/
def sampleElementB : Element :=
  { path := 2, color := (0, 0, 1, 1), rasterMethod := 0,
    shader := sampleShaderB, sampleDepth := 0 }

/-- The raster outputs of `rasterTri` over two elements. -/
def sampleOuts : List (List GpuVertex × List Nat) :=
  [([⟨(0, 0), (1, 0, 0, 1)⟩, ⟨(1, 0), (1, 0, 0, 1)⟩, ⟨(0, 1), (1, 0, 0, 1)⟩], [0, 1, 2]),
   ([⟨(0, 0), (1, 0, 0, 1)⟩, ⟨(1, 0), (1, 0, 0, 1)⟩, ⟨(0, 1), (1, 0, 0, 1)⟩], [0, 1, 2])]

/-- Draw list of a concrete successful `precompose` over two distinct-id
elements. -/
def sampleDraws : List Draw :=
  (((precompose rasterTri 4 4 [sampleElementA, sampleElementB]).toOption).map Prod.snd).getD []

/-- Draw list of a concrete successful `precompose` over two elements that
share one shader id. -/
def sampleDrawsSame : List Draw :=
  (((precompose rasterTri 4 4 [sampleElementA, sampleElementA2]).toOption).map Prod.snd).getD []

/-- Draw list of a concrete successful `precompose` whose single run merges
two elements and produces zero-length buffers. -/
def sampleDrawsEmpty : List Draw :=
  (((precompose rasterEmpty 7 9 [sampleElementA, sampleElementA2]).toOption).map Prod.snd).getD []

/-- A concrete one-cell store. -/
def sampleStore : Store := [⟨[("alpha", .Float 1)]⟩]

/-- A concrete shader reference pointing at cell 0 of `sampleStore`. -/
def sampleShaderRef : ShaderRef := { id := 5, program := 0, ub := 0 }

/-- A concrete store-model element. -/
def sampleElementR : ElementG ShaderRef :=
  { path := 0, color := (0, 0, 0, 1), rasterMethod := 0,
    shader := sampleShaderRef, sampleDepth := 0 }

/-- Final store of a concrete successful `precompose_st`. -/
def sampleStOut : Store :=
  (((precompose_st rasterTri 4 4 sampleStore [sampleElementR]).toOption).map Prod.fst).getD []

/-- Draw list of a concrete successful `precompose_st`. -/
def sampleStDraws : List Draw :=
  (((precompose_st rasterTri 4 4 sampleStore [sampleElementR]).toOption).map
    (fun p => p.2.2)).getD []

/-- `Point` from `src/geom/point.rs`, components modelled by exact
rationals.  The f32-arithmetic claims about `Point` concern IEEE-754
rounding and are not settled against this exact model; the definitions and
exact-arithmetic facts below only document the idealized behavior. -/
structure Point where
  x : F32
  y : F32
deriving DecidableEq

/-- `Point::WORLD_OFFSET`. -/
def Point.WORLD_OFFSET : F32 := 1

/-- `Point::WORLD_FACTOR`. -/
def Point.WORLD_FACTOR : F32 := 2

/-- `impl Add for Point`, exact arithmetic. -/
def Point.add (p q : Point) : Point := ⟨p.x + q.x, p.y + q.y⟩

/-- `impl Sub for Point`, exact arithmetic. -/
def Point.sub (p q : Point) : Point := ⟨p.x - q.x, p.y - q.y⟩

/-- `Point::fix_coord`, exact arithmetic. -/
def Point.fix_coord (coord : F32) : F32 := coord * Point.WORLD_FACTOR - Point.WORLD_OFFSET

/-- `Point::restore_coord`, exact arithmetic. -/
def Point.restore_coord (coord : F32) : F32 := (coord + Point.WORLD_OFFSET) / Point.WORLD_FACTOR

/-- `Point::raw_distance`, exact arithmetic. -/
def Point.raw_distance (p q : Point) : F32 :=
  (abs ((p.sub q).x)) ^ 2 + (abs ((p.sub q).y)) ^ 2

/-- The first run produced by `group_by` starts with the first element of the
input. -/
theorem group_by_cons {α : Type} (key : α → Nat) (a : α) (l : List α) :
    ∃ r rs, group_by key (a :: l) = (a :: r) :: rs := by
  induction l generalizing a with
  | nil => exact ⟨[], [], rfl⟩
  | cons b rest ih =>
    obtain ⟨r, rs, h⟩ := ih b
    cases hk : key a == key b with
    | true => exact ⟨b :: r, rs, by simp [group_by, h, hk]⟩
    | false => exact ⟨[], (b :: r) :: rs, by simp [group_by, h, hk]⟩

/-- `group_by` only regroups: flattening the runs restores the input. -/
theorem group_by_flatten {α : Type} (key : α → Nat) :
    ∀ l : List α, (group_by key l).flatten = l := by
  intro l
  induction l with
  | nil => rfl
  | cons a rest ih =>
    cases rest with
    | nil => rfl
    | cons b t =>
      obtain ⟨r, rs, h⟩ := group_by_cons key b t
      rw [h] at ih
      cases hk : key a == key b with
      | true =>
        simp only [group_by, h, hk, if_true]
        simpa using ih
      | false =>
        simp only [group_by, h, hk, if_false]
        simpa using ih

/-- Every run produced by `group_by` is non-empty. -/
theorem group_by_ne_nil {α : Type} (key : α → Nat) :
    ∀ l : List α, ∀ r ∈ group_by key l, r ≠ [] := by
  intro l
  induction l with
  | nil => intro r hr; simp [group_by] at hr
  | cons a rest ih =>
    cases rest with
    | nil =>
      intro r hr
      simp only [group_by, List.mem_singleton] at hr
      subst hr; simp
    | cons b t =>
      intro r hr
      obtain ⟨r0, rs, h⟩ := group_by_cons key b t
      have ih' := ih
      rw [h] at ih'
      cases hk : key a == key b with
      | true =>
        simp only [group_by, h, hk, if_true] at hr
        rcases List.mem_cons.mp hr with rfl | hr
        · simp
        · exact ih' r (by simp [hr])
      | false =>
        simp only [group_by, h, hk] at hr
        rw [if_neg (by simp)] at hr
        rcases List.mem_cons.mp hr with rfl | hr
        · simp
        · exact ih' r hr

/-- Within any run produced by `group_by`, all elements share one key. -/
theorem group_by_key_const {α : Type} (key : α → Nat) :
    ∀ l : List α, ∀ r ∈ group_by key l, ∀ x ∈ r, ∀ y ∈ r, key x = key y := by
  intro l
  induction l with
  | nil => intro r hr; simp [group_by] at hr
  | cons a rest ih =>
    cases rest with
    | nil =>
      intro r hr x hx y hy
      simp only [group_by, List.mem_singleton] at hr
      subst hr
      simp only [List.mem_singleton] at hx hy
      subst hx; subst hy; rfl
    | cons b t =>
      intro r hr x hx y hy
      obtain ⟨r0, rs, h⟩ := group_by_cons key b t
      have ih' := ih
      rw [h] at ih'
      cases hk : key a == key b with
      | true =>
        simp only [group_by, h, hk, if_true] at hr
        have hab : key a = key b := by simpa using hk
        rcases List.mem_cons.mp hr with rfl | hr
        · -- run is a :: b :: r0; every member keys to `key b`
          have hmem : ∀ z ∈ a :: b :: r0, key z = key b := by
            intro z hz
            rcases List.mem_cons.mp hz with rfl | hz
            · exact hab
            · exact ih' (b :: r0) (by simp) z hz b (by simp)
          rw [hmem x hx, hmem y hy]
        · exact ih' r (by simp [hr]) x hx y hy
      | false =>
        simp only [group_by, h, hk] at hr
        rw [if_neg (by simp)] at hr
        rcases List.mem_cons.mp hr with rfl | hr
        · simp only [List.mem_singleton] at hx hy
          subst hx; subst hy; rfl
        · exact ih' r hr x hx y hy

/-- Adjacent runs produced by `group_by` carry distinct keys (maximality:
a run never splits, and two runs never share a boundary key). -/
theorem group_by_chain {α : Type} (key : α → Nat) :
    ∀ l : List α,
      List.Chain' (fun r₁ r₂ => r₁.head?.map key ≠ r₂.head?.map key) (group_by key l) := by
  intro l
  induction l with
  | nil => simp [group_by]
  | cons a rest ih =>
    cases rest with
    | nil => simp [group_by]
    | cons b t =>
      obtain ⟨r0, rs, h⟩ := group_by_cons key b t
      rw [h] at ih
      cases hk : key a == key b with
      | true =>
        have hab : key a = key b := by simpa using hk
        simp only [group_by, h, hk, if_true]
        cases rs with
        | nil => simp
        | cons r1 rs1 =>
          rw [List.chain'_cons] at ih ⊢
          exact ⟨by simpa [hab] using ih.1, ih.2⟩
      | false =>
        have hab : key a ≠ key b := by simpa using hk
        simp only [group_by, h, hk]
        rw [if_neg (by simp)]
        rw [List.chain'_cons]
        refine ⟨?_, ih⟩
        simpa using hab

/-- If every element of a non-empty list shares one key, `group_by` produces
a single run: the whole list. -/
theorem group_by_const {α : Type} (key : α → Nat) (k : Nat) :
    ∀ (a : α) (l : List α), (∀ x ∈ a :: l, key x = k) →
      group_by key (a :: l) = [a :: l] := by
  intro a l
  induction l generalizing a with
  | nil => intro _; rfl
  | cons b t ih =>
    intro hall
    have hb : group_by key (b :: t) = [b :: t] := by
      apply ih
      intro x hx
      exact hall x (List.mem_cons_of_mem a hx)
    have hk : (key a == key b) = true := by
      have ha := hall a (by simp)
      have hb' := hall b (by simp)
      simp [ha, hb']
    simp [group_by, hb, hk]

theorem specMergedVertices_nil : specMergedVertices [] = [] := rfl

theorem specMergedVertices_cons (out : List GpuVertex × List Nat)
    (outs : List (List GpuVertex × List Nat)) :
    specMergedVertices (out :: outs) = out.1 ++ specMergedVertices outs := by
  simp [specMergedVertices]

/-- Generalized correctness of the `try_fold` in `build_buffers`: starting
from an accumulator holding `vs0` vertices and `is0` indices, a successful
fold appends exactly the concatenated raster vertices and the rebased
indices, and no `u32` wraparound occurs while the total vertex count stays
below `2^32`. -/
theorem build_fold_eq {S : Type} (raster : Raster) :
    ∀ (elements : List (ElementG S)) (outs : List (List GpuVertex × List Nat))
      (vs0 : List GpuVertex) (is0 : List Nat),
      rasterAll raster elements = .ok outs →
      validOuts outs →
      vs0.length + (specMergedVertices outs).length < U32 →
      elements.foldlM (buildStep raster) (vs0.length, vs0, is0) =
        .ok (vs0.length + (specMergedVertices outs).length,
             vs0 ++ specMergedVertices outs,
             is0 ++ specMergedIndicesFrom vs0.length outs) := by
  intro elements
  induction elements with
  | nil =>
    intro outs vs0 is0 hra _ _
    simp only [rasterAll] at hra
    cases hra
    simp [List.foldlM_nil, specMergedVertices, specMergedIndicesFrom, pure, Except.pure]
  | cons e es ih =>
    intro outs vs0 is0 hra hv hb
    rw [List.foldlM_cons]
    cases hre : rasterElement raster e with
    | error err => simp [rasterAll, hre, Bind.bind, Except.bind] at hra
    | ok out =>
      cases hras : rasterAll raster es with
      | error err => simp [rasterAll, hre, hras, Bind.bind, Except.bind] at hra
      | ok outs' =>
        have houts : outs = out :: outs' := by
          simp [rasterAll, hre, hras, Bind.bind, Except.bind, pure, Except.pure] at hra
          exact hra.symm
        subst houts
        have hlen : (vs0 ++ out.1).length = vs0.length + out.1.length :=
          List.length_append vs0 out.1
        have hmerged : specMergedVertices (out :: outs') = out.1 ++ specMergedVertices outs' :=
          specMergedVertices_cons out outs'
        have htot : vs0.length + out.1.length + (specMergedVertices outs').length < U32 := by
          rw [hmerged] at hb
          simp only [List.length_append] at hb
          omega
        have hstep : buildStep raster (vs0.length, vs0, is0) e =
            .ok ((vs0 ++ out.1).length % U32, vs0 ++ out.1,
                 is0 ++ out.2.map (fun i => (i + vs0.length) % U32)) := by
          simp [buildStep, hre, Bind.bind, Except.bind, pure, Except.pure]
        have hmodlen : (vs0 ++ out.1).length % U32 = vs0.length + out.1.length := by
          rw [hlen]
          exact Nat.mod_eq_of_lt (by omega)
        have hmodmap : out.2.map (fun i => (i + vs0.length) % U32) =
            out.2.map (fun i => i + vs0.length) := by
          apply List.map_congr_left
          intro i hi
          have : i < out.1.length := hv out (by simp) i hi
          exact Nat.mod_eq_of_lt (by omega)
        rw [hstep, hmodlen, hmodmap]
        have hv' : validOuts outs' := by
          intro o ho i hi
          exact hv o (by simp [ho]) i hi
        have ihe := ih outs' (vs0 ++ out.1)
          (is0 ++ out.2.map (fun i => i + vs0.length)) hras hv' (by rw [hlen]; omega)
        rw [hlen] at ihe
        simp only [Bind.bind, Except.bind]
        rw [ihe]
        simp only [specMergedIndicesFrom, hmerged]
        simp [List.append_assoc, List.length_append, Nat.add_assoc]

/-- Every rebased index stays below `base` plus the total merged vertex
count, provided each raster output indexes into its own vertices. -/
theorem specMergedIndicesFrom_lt :
    ∀ (outs : List (List GpuVertex × List Nat)) (base : Nat), validOuts outs →
      ∀ j ∈ specMergedIndicesFrom base outs, j < base + (specMergedVertices outs).length := by
  intro outs
  induction outs with
  | nil => intro base _ j hj; simp [specMergedIndicesFrom] at hj
  | cons out outs' ih =>
    intro base hv j hj
    simp only [specMergedIndicesFrom, List.mem_append, List.mem_map] at hj
    rw [specMergedVertices_cons, List.length_append]
    rcases hj with ⟨i, hi, rfl⟩ | hj
    · have : i < out.1.length := hv out (by simp) i hi
      omega
    · have hv' : validOuts outs' := fun o ho i hi => hv o (by simp [ho]) i hi
      have := ih (base + out.1.length) hv' j hj
      omega

/-- A rebased index dereferences, in the merged vertex array, the very
vertex it addressed in its own element's vertex array. -/
theorem specMergedVertices_getElem :
    ∀ (outs : List (List GpuVertex × List Nat)), validOuts outs →
      ∀ (k : Nat) (out : List GpuVertex × List Nat), outs[k]? = some out →
        ∀ i ∈ out.2,
          (specMergedVertices outs)[vertexOffset outs k + i]? = out.1[i]? := by
  intro outs
  induction outs with
  | nil => intro _ k out hk; simp at hk
  | cons o outs' ih =>
    intro hv k out hk i hi
    cases k with
    | zero =>
      simp only [List.getElem?_cons_zero, Option.some.injEq] at hk
      subst hk
      have hio : i < o.1.length := hv o (by simp) i hi
      rw [specMergedVertices_cons]
      have hoff : vertexOffset (o :: outs') 0 = 0 := by simp [vertexOffset]
      rw [hoff, Nat.zero_add]
      exact List.getElem?_append_left hio
    | succ k' =>
      simp only [List.getElem?_cons_succ] at hk
      have hv' : validOuts outs' := fun x hx j hj => hv x (by simp [hx]) j hj
      have hoff : vertexOffset (o :: outs') (k' + 1) = o.1.length + vertexOffset outs' k' := by
        simp [vertexOffset, List.take_succ_cons]
      rw [specMergedVertices_cons, hoff]
      have harr : o.1.length + vertexOffset outs' k' + i =
          o.1.length + (vertexOffset outs' k' + i) := by omega
      rw [harr]
      rw [List.getElem?_append_right (Nat.le_add_right _ _)]
      rw [Nat.add_sub_cancel_left]
      exact ih hv' k' out hk i hi

/-- Claim C2: for every run, `build_buffers` produces the vertex array equal
to the concatenation, in input order, of the per-element `raster_path`
vertex arrays, and the index array equal to the concatenation of the
per-element index arrays rebased by the vertex count accumulated before
each element; consequently every merged index lies below the total vertex
count and dereferences the same vertex as before the merge. -/
theorem claim_C2 (raster : Raster) (elements : List Element)
    (outs : List (List GpuVertex × List Nat))
    (hra : rasterAll raster elements = .ok outs)
    (hv : validOuts outs)
    (hb : (specMergedVertices outs).length < U32) :
    build_buffers raster elements = .ok (specMergedIndices outs, specMergedVertices outs)
    ∧ (∀ j ∈ specMergedIndices outs, j < (specMergedVertices outs).length)
    ∧ (∀ (k : Nat) (out : List GpuVertex × List Nat), outs[k]? = some out →
        ∀ i ∈ out.2,
          (specMergedVertices outs)[vertexOffset outs k + i]? = out.1[i]?) := by
  refine ⟨?_, ?_, specMergedVertices_getElem outs hv⟩
  · have hfold := build_fold_eq raster elements outs [] []
      hra hv (by simpa using hb)
    simp only [List.length_nil, List.nil_append, Nat.zero_add] at hfold
    simp [build_buffers, hfold, Bind.bind, Except.bind, pure, Except.pure, specMergedIndices]
  · intro j hj
    have := specMergedIndicesFrom_lt outs 0 hv j (by simpa [specMergedIndices] using hj)
    omega

/-- A successful `precompose_batch` on a non-empty batch produces exactly
one draw call satisfying `drawOfBatch`. -/
theorem precompose_batch_spec (raster : Raster) (w h : Nat)
    (first : Element) (rest : List Element) (od : Option Draw)
    (hok : precompose_batch raster w h (first :: rest) = .ok od) :
    ∃ d, od = some d ∧ drawOfBatch raster w h (first :: rest) d := by
  cases hbb : build_buffers raster (first :: rest) with
  | error err =>
    simp [precompose_batch, hbb, Bind.bind, Except.bind] at hok
  | ok iv =>
    simp only [precompose_batch, hbb, Bind.bind, Except.bind, pure, Except.pure,
      Except.ok.injEq] at hok
    refine ⟨{ vertices := iv.2, indices := iv.1,
              program := first.shader.program,
              uniforms := ⟨first.shader.uniforms.uniforms ++
                [("width", UniformValue.Float (w : F32)),
                 ("height", UniformValue.Float (h : F32))]⟩ }, ?_, ?_⟩
    · rw [← hok]
      simp [Shader.clone, UniformBuffer.push, List.append_assoc]
    · exact ⟨first, rest, rfl, rfl, rfl, by simpa using hbb⟩

/-- Generalized loop invariant for `precompose`: a successful fold over
non-empty batches appends exactly one draw per batch, each related to its
batch by `drawOfBatch`. -/
theorem precompose_fold_spec (raster : Raster) (w h : Nat) :
    ∀ (batches : List (List Element)) (acc draws : List Draw),
      (∀ b ∈ batches, b ≠ []) →
      batches.foldlM (precompose_step raster w h) acc = .ok draws →
      ∃ newDraws, draws = acc ++ newDraws ∧
        List.Forall₂ (drawOfBatch raster w h) batches newDraws := by
  intro batches
  induction batches with
  | nil =>
    intro acc draws _ hfold
    simp only [List.foldlM_nil, pure, Except.pure, Except.ok.injEq] at hfold
    exact ⟨[], by simp [hfold], List.Forall₂.nil⟩
  | cons b bs ih =>
    intro acc draws hne hfold
    rw [List.foldlM_cons] at hfold
    obtain ⟨first, rest, rfl⟩ := List.exists_cons_of_ne_nil (hne b (by simp))
    cases hpb : precompose_batch raster w h (first :: rest) with
    | error err =>
      simp [precompose_step, hpb, Bind.bind, Except.bind] at hfold
    | ok od =>
      obtain ⟨d, rfl, hd⟩ := precompose_batch_spec raster w h first rest od hpb
      have hstep : precompose_step raster w h acc (first :: rest) = .ok (acc ++ [d]) := by
        simp [precompose_step, hpb, Bind.bind, Except.bind, pure, Except.pure]
      rw [hstep] at hfold
      simp only [Bind.bind, Except.bind] at hfold
      obtain ⟨newDraws, rfl, hfa⟩ := ih (acc ++ [d]) draws (fun x hx => hne x (by simp [hx])) hfold
      exact ⟨d :: newDraws, by simp, List.Forall₂.cons hd hfa⟩

/-- A successful `precompose` returns the freshly allocated target and one
draw per contiguous run, in run order. -/
theorem precompose_spec (raster : Raster) (w h : Nat) (elements : List Element)
    (t : Texture2dMultisample) (draws : List Draw)
    (hok : precompose raster w h elements = .ok (t, draws)) :
    t = build_texture w h ∧
    List.Forall₂ (drawOfBatch raster w h) (group_by (fun e => e.shader.id) elements) draws := by
  cases hfold : (group_by (fun e => e.shader.id) elements).foldlM
      (precompose_step raster w h) [] with
  | error err =>
    simp [precompose, hfold, Bind.bind, Except.bind] at hok
  | ok ds =>
    simp only [precompose, hfold, Bind.bind, Except.bind, pure, Except.pure,
      Except.ok.injEq, Prod.mk.injEq] at hok
    obtain ⟨ht, hds⟩ := hok
    subst ht
    subst hds
    obtain ⟨newDraws, hnd, hfa⟩ := precompose_fold_spec raster w h
      (group_by (fun e => e.shader.id) elements) [] ds
      (group_by_ne_nil (fun e => e.shader.id) elements) hfold
    rw [hnd]
    exact ⟨rfl, by simpa using hfa⟩

/-- Claim C1: `precompose` partitions the input into maximal contiguous runs
of equal `shader.id` and issues exactly one indexed draw per run: the runs
cover the input in order, are non-empty and id-constant, adjacent runs have
distinct ids (maximality), a successful composition issues one draw per
run, and concretely two consecutive equal-id elements yield one run while
distinct ids yield separate runs that are never merged across a gap. -/
theorem claim_C1 :
    (∀ (elements : List Element),
        (group_by (fun e => e.shader.id) elements).flatten = elements ∧
        (∀ r ∈ group_by (fun e => e.shader.id) elements,
            r ≠ [] ∧ ∀ x ∈ r, ∀ y ∈ r, x.shader.id = y.shader.id) ∧
        List.Chain'
          (fun r₁ r₂ =>
            r₁.head?.map (fun e => e.shader.id) ≠ r₂.head?.map (fun e => e.shader.id))
          (group_by (fun e => e.shader.id) elements)) ∧
    (∀ (raster : Raster) (w h : Nat) (elements : List Element)
        (t : Texture2dMultisample) (draws : List Draw),
        precompose raster w h elements = .ok (t, draws) →
        draws.length = (group_by (fun e => e.shader.id) elements).length) ∧
    (∀ a b : Element, a.shader.id = b.shader.id →
        group_by (fun e => e.shader.id) [a, b] = [[a, b]]) ∧
    (∀ a b : Element, a.shader.id ≠ b.shader.id →
        group_by (fun e => e.shader.id) [a, b] = [[a], [b]]) ∧
    (∀ a b c : Element, a.shader.id = c.shader.id → a.shader.id ≠ b.shader.id →
        group_by (fun e => e.shader.id) [a, b, c] = [[a], [b], [c]]) := by
  refine ⟨?_, ?_, ?_, ?_, ?_⟩
  · intro elements
    exact ⟨group_by_flatten _ elements,
      fun r hr => ⟨group_by_ne_nil _ elements r hr, group_by_key_const _ elements r hr⟩,
      group_by_chain _ elements⟩
  · intro raster w h elements t draws hok
    exact ((precompose_spec raster w h elements t draws hok).2.length_eq).symm
  · intro a b h
    simp [group_by, h]
  · intro a b h
    simp [group_by, h]
  · intro a b c h1 h2
    have hbc : b.shader.id ≠ c.shader.id := fun hh => h2 (h1.trans hh.symm)
    simp [group_by, h2, hbc]

/-- The bindings appended at the end of a uniform buffer are the last ones
observed for their names by the in-order visitor. -/
theorem lastBinding_append_defaults (u : List (String × UniformValue))
    (wv hv : UniformValue) :
    (UniformBuffer.mk (u ++ [("width", wv), ("height", hv)])).lastBinding "width" = some wv ∧
    (UniformBuffer.mk (u ++ [("width", wv), ("height", hv)])).lastBinding "height" = some hv := by
  constructor <;> simp [UniformBuffer.lastBinding, List.reverse_append, List.lookup]

/-- The in-order visitor yields exactly the binding list. -/
theorem visit_values_order (b : UniformBuffer) :
    b.visit_values (fun n v acc => acc ++ [(n, v)]) [] = b.uniforms := by
  have gen : ∀ (l : List (String × UniformValue)) (acc : List (String × UniformValue)),
      l.foldl (fun s p => s ++ [(p.1, p.2)]) acc = acc ++ l := by
    intro l
    induction l with
    | nil => intro acc; simp
    | cons p tl ih => intro acc; simp [ih, List.append_assoc]
  simpa [UniformBuffer.visit_values] using gen b.uniforms []

/-- Claim C3: every batch draws with the first element's uniforms plus
`width`/`height` (as `Float`) appended unconditionally after all
caller-supplied bindings; the visitor yields bindings in insertion order,
so the appended defaults are the last observed for those names even when
the caller already bound them. -/
theorem claim_C3 :
    (∀ (raster : Raster) (w h : Nat) (elements : List Element)
        (t : Texture2dMultisample) (draws : List Draw),
        precompose raster w h elements = .ok (t, draws) →
        List.Forall₂
          (fun batch d =>
            ∃ first rest, batch = first :: rest ∧
              d.uniforms.uniforms = first.shader.uniforms.uniforms ++
                [("width", UniformValue.Float (w : F32)),
                 ("height", UniformValue.Float (h : F32))] ∧
              d.uniforms.lastBinding "width" = some (UniformValue.Float (w : F32)) ∧
              d.uniforms.lastBinding "height" = some (UniformValue.Float (h : F32)))
          (group_by (fun e => e.shader.id) elements) draws) ∧
    (∀ (b : UniformBuffer),
        b.visit_values (fun n v acc => acc ++ [(n, v)]) [] = b.uniforms) := by
  constructor
  · intro raster w h elements t draws hok
    refine ((precompose_spec raster w h elements t draws hok).2).imp ?_
    rintro batch d ⟨first, rest, rfl, _, hunif, _⟩
    refine ⟨first, rest, rfl, ?_, ?_, ?_⟩
    · rw [hunif]
    · rw [hunif]
      exact (lastBinding_append_defaults _ _ _).1
    · rw [hunif]
      exact (lastBinding_append_defaults _ _ _).2
  · exact visit_values_order

/-- Claim C7: `precompose` on the empty element sequence returns a freshly
allocated multisample float texture of exactly the requested size with an
empty draw trace (no draw issued, no clear performed). -/
theorem claim_C7 (raster : Raster) (w h : Nat) :
    precompose raster w h [] = .ok (build_texture w h, []) ∧
    build_texture w h = { format := .F32F32F32F32, mipmaps := .NoMipmap,
                          width := w, height := h, samples := 1 } :=
  ⟨rfl, rfl⟩

/-- Claim C8: `default_shader` returns a shader using the context's default
program whose uniform buffer holds exactly the `width` and `height`
bindings, in that order, stamped with the supplied fresh id token. -/
theorem claim_C8 (g : Gpu) (freshId : Nat) (width height : F32) :
    default_shader g freshId width height =
      { id := freshId
      , program := g.program
      , uniforms := ⟨[("width", UniformValue.Float width),
                      ("height", UniformValue.Float height)]⟩ } :=
  rfl

/-- Claim C10: cloning preserves id, shared program and uniform bindings; a
fresh id comes only from construction (`default_shader`, `build_shader`,
whose id is the supplied fresh token), never from `clone`; and contiguous
elements sharing one shader id form a single batch, so a successful
composition over them issues exactly one draw. -/
theorem claim_C10 :
    (∀ s : Shader, s.clone = s ∧ s.clone.id = s.id ∧ s.clone.program = s.program ∧
        s.clone.uniforms = s.uniforms) ∧
    (∀ (g : Gpu) (freshId : Nat) (w h : F32), (default_shader g freshId w h).id = freshId) ∧
    (∀ (g : Gpu) (freshId program : Nat) (u : UniformBuffer),
        (build_shader g freshId program u).id = freshId) ∧
    (∀ (raster : Raster) (w h : Nat) (elements : List Element)
        (t : Texture2dMultisample) (draws : List Draw) (k : Nat),
        precompose raster w h elements = .ok (t, draws) →
        elements ≠ [] →
        (∀ e ∈ elements, e.shader.id = k) →
        draws.length = 1) := by
  refine ⟨fun s => ⟨rfl, rfl, rfl, rfl⟩, fun _ _ _ _ => rfl, fun _ _ _ _ => rfl, ?_⟩
  intro raster w h elements t draws k hok hne hall
  obtain ⟨a, l, rfl⟩ := List.exists_cons_of_ne_nil hne
  have hgb := group_by_const (fun e => e.shader.id) k a l hall
  have hlen := (precompose_spec raster w h (a :: l) t draws hok).2.length_eq
  rw [hgb] at hlen
  simpa using hlen.symm

/-- Claim C4 (amended): in every successful composition, every run —
including any run whose merged vertex and index arrays are both
zero-length — issues exactly one draw call (the runs and the draws are in
one-to-one order-preserving correspondence); a run with zero-length merged
buffers draws with empty buffers; and the only silently skipped case is an
empty group, which `group_by` never produces.  (The source draws
unconditionally per group; it has no zero-length skip.) -/
theorem claim_C4_amended :
    (∀ (raster : Raster) (w h : Nat) (elements : List Element)
        (t : Texture2dMultisample) (draws : List Draw),
        precompose raster w h elements = .ok (t, draws) →
        List.Forall₂
          (fun batch d =>
            build_buffers raster batch = .ok (d.indices, d.vertices) ∧
            (build_buffers raster batch = .ok ([], []) →
              d.vertices = [] ∧ d.indices = []))
          (group_by (fun e => e.shader.id) elements) draws) ∧
    (∀ (raster : Raster) (w h : Nat), precompose_batch raster w h [] = .ok none) := by
  constructor
  · intro raster w h elements t draws hok
    refine ((precompose_spec raster w h elements t draws hok).2).imp ?_
    rintro batch d ⟨first, rest, rfl, _, _, hbb⟩
    refine ⟨hbb, ?_⟩
    intro hz
    have hiv := hbb.symm.trans hz
    simp only [Except.ok.injEq, Prod.mk.injEq] at hiv
    exact ⟨hiv.2, hiv.1⟩
  · intro raster w h
    rfl

/-- Claim C4 counterexample: with a rasterizer that produces no geometry,
`precompose` does not skip the run — it issues exactly one draw call, whose
vertex and index arrays are empty, where the claim requires zero draws. -/
theorem claim_C4_counterexample :
    Except.map (fun p => p.2.map (fun d => (d.vertices, d.indices)))
        (precompose rasterEmpty 4 4 [sampleElementA]) = .ok [([], [])] ∧
    Except.map (fun p => p.2.length) (precompose rasterEmpty 4 4 [sampleElementA]) =
      .ok 1 :=
  ⟨rfl, rfl⟩

/-- Witness for the amended claim C4 at a concrete input whose single run
merges two elements and produces zero-length buffers. -/
theorem claim_C4_witness :
    List.Forall₂
      (fun batch d =>
        build_buffers rasterEmpty batch = .ok (d.indices, d.vertices) ∧
        (build_buffers rasterEmpty batch = .ok ([], []) →
          d.vertices = [] ∧ d.indices = []))
      (group_by (fun e => e.shader.id) [sampleElementA, sampleElementA2])
      sampleDrawsEmpty :=
  claim_C4_amended.1 rasterEmpty 7 9 [sampleElementA, sampleElementA2]
    (build_texture 7 9) sampleDrawsEmpty rfl

/-- Reading the freshly appended cell. -/
theorem Store.read_append_self (st : Store) (c : UniformBuffer) :
    Store.read (st ++ [c]) st.length = c := by
  simp [Store.read, List.getD, List.getElem?_append_right (Nat.le_refl st.length)]

/-- Reading below the old length ignores appended cells. -/
theorem Store.read_append_of_lt (st ext : Store) (a : Nat) (ha : a < st.length) :
    Store.read (st ++ ext) a = Store.read st a := by
  simp [Store.read, List.getD, List.getElem?_append_left ha]

/-- Overwriting the freshly appended cell. -/
theorem Store.set_append_self (st : Store) (c v : UniformBuffer) :
    (st ++ [c]).set st.length v = st ++ [v] := by
  rw [List.set_append_right _ _ (Nat.le_refl _)]
  simp

/-- A successful `precompose_batch_st` on a non-empty batch grows the store
by exactly the one cell allocated by the clone, holding the first shader's
uniforms with the `width`/`height` defaults appended. -/
theorem precompose_batch_st_store (raster : Raster) (w h : Nat) (st : Store)
    (first0 : ElementG ShaderRef) (rest : List (ElementG ShaderRef))
    (st' : Store) (od : Option Draw)
    (hok : precompose_batch_st raster w h st (first0 :: rest) = .ok (st', od)) :
    st' = st ++ [((Store.read st first0.shader.ub).push "width"
        (.Float (w : F32))).push "height" (.Float (h : F32))] := by
  cases hbb : build_buffers raster (first0 :: rest) with
  | error err => simp [precompose_batch_st, hbb, Bind.bind, Except.bind] at hok
  | ok iv =>
    simp only [precompose_batch_st, ShaderRef.cloneRef, hbb, Bind.bind, Except.bind,
      pure, Except.pure, Store.read_append_self, Store.set_append_self,
      Except.ok.injEq, Prod.mk.injEq] at hok
    exact hok.1.symm

/-- A successful `precompose_batch_st` only extends the store. -/
theorem precompose_batch_st_frame (raster : Raster) (w h : Nat) (st : Store)
    (batch : List (ElementG ShaderRef)) (st' : Store) (od : Option Draw)
    (hok : precompose_batch_st raster w h st batch = .ok (st', od)) :
    ∃ ext, st' = st ++ ext := by
  cases batch with
  | nil =>
    simp only [precompose_batch_st, pure, Except.pure, Except.ok.injEq,
      Prod.mk.injEq] at hok
    exact ⟨[], by simp [← hok.1]⟩
  | cons first0 rest =>
    exact ⟨_, precompose_batch_st_store raster w h st first0 rest st' od hok⟩

/-- The whole store-model fold only extends the store. -/
theorem precompose_fold_st_frame (raster : Raster) (w h : Nat) :
    ∀ (batches : List (List (ElementG ShaderRef))) (st : Store) (ds : List Draw)
      (res : Store × List Draw),
      batches.foldlM (precompose_step_st raster w h) (st, ds) = .ok res →
      ∃ ext, res.1 = st ++ ext := by
  intro batches
  induction batches with
  | nil =>
    intro st ds res hfold
    simp only [List.foldlM_nil, pure, Except.pure, Except.ok.injEq] at hfold
    exact ⟨[], by simp [← hfold]⟩
  | cons b bs ih =>
    intro st ds res hfold
    rw [List.foldlM_cons] at hfold
    cases hpb : precompose_batch_st raster w h st b with
    | error err =>
      simp [precompose_step_st, hpb, Bind.bind, Except.bind] at hfold
    | ok p =>
      obtain ⟨st1, od⟩ := p
      obtain ⟨ext0, rfl⟩ := precompose_batch_st_frame raster w h st b st1 od hpb
      have hstep : ∃ ds1, precompose_step_st raster w h (st, ds) b = .ok (st ++ ext0, ds1) := by
        cases od with
        | none =>
          exact ⟨ds, by simp [precompose_step_st, hpb, Bind.bind, Except.bind, pure, Except.pure]⟩
        | some d =>
          exact ⟨ds ++ [d], by
            simp [precompose_step_st, hpb, Bind.bind, Except.bind, pure, Except.pure]⟩
      obtain ⟨ds1, hstep⟩ := hstep
      rw [hstep] at hfold
      simp only [Bind.bind, Except.bind] at hfold
      obtain ⟨ext1, hres⟩ := ih (st ++ ext0) ds1 res hfold
      exact ⟨ext0 ++ ext1, by simp [hres, List.append_assoc]⟩

/-- Claim C9: `precompose` appends the `width`/`height` uniforms only to a
local clone of the first shader of each batch; the store grows by fresh
cells only, so every uniform-buffer cell that existed before the call — in
particular the cell owned by any input element's shader, and any other
retained clone — reads back unchanged afterwards. -/
theorem claim_C9 (raster : Raster) (w h : Nat) (st : Store)
    (elements : List (ElementG ShaderRef)) (st' : Store)
    (t : Texture2dMultisample) (draws : List Draw)
    (hok : precompose_st raster w h st elements = .ok (st', t, draws)) :
    (∃ ext, st' = st ++ ext) ∧
    (∀ a, a < st.length → Store.read st' a = Store.read st a) ∧
    (∀ e ∈ elements, e.shader.ub < st.length →
        Store.read st' e.shader.ub = Store.read st e.shader.ub) := by
  have hext : ∃ ext, st' = st ++ ext := by
    cases hfold : (group_by (fun e => e.shader.id) elements).foldlM
        (precompose_step_st raster w h) (st, []) with
    | error err =>
      simp [precompose_st, hfold, Bind.bind, Except.bind] at hok
    | ok res =>
      simp only [precompose_st, hfold, Bind.bind, Except.bind, pure, Except.pure,
        Except.ok.injEq, Prod.mk.injEq] at hok
      obtain ⟨ext, hres⟩ := precompose_fold_st_frame raster w h _ st [] res hfold
      exact ⟨ext, by rw [← hok.1, hres]⟩
  obtain ⟨ext, rfl⟩ := hext
  refine ⟨⟨ext, rfl⟩, ?_, ?_⟩
  · intro a ha
    exact Store.read_append_of_lt st ext a ha
  · intro e _ hlt
    exact Store.read_append_of_lt st ext e.shader.ub hlt

/-- Witness for claim C1 at a concrete input: a successful two-element
composition issues one draw per run. -/
theorem claim_C1_witness :
    sampleDraws.length =
      (group_by (fun e => e.shader.id) [sampleElementA, sampleElementB]).length :=
  claim_C1.2.1 rasterTri 4 4 [sampleElementA, sampleElementB]
    (build_texture 4 4) sampleDraws rfl

/-- Witness for claim C2 at a concrete input: the folded buffers equal the
spec-side merge of the raster outputs. -/
theorem claim_C2_witness :
    build_buffers rasterTri [sampleElementA, sampleElementB] =
      .ok (specMergedIndices sampleOuts, specMergedVertices sampleOuts) :=
  (claim_C2 rasterTri [sampleElementA, sampleElementB] sampleOuts rfl
    (by unfold validOuts; decide) (by decide)).1

/-- Witness for claim C3 at a concrete input. -/
theorem claim_C3_witness :
    List.Forall₂
      (fun batch d =>
        ∃ first rest, batch = first :: rest ∧
          d.uniforms.uniforms = first.shader.uniforms.uniforms ++
            [("width", UniformValue.Float ((4 : Nat) : F32)),
             ("height", UniformValue.Float ((4 : Nat) : F32))] ∧
          d.uniforms.lastBinding "width" = some (UniformValue.Float ((4 : Nat) : F32)) ∧
          d.uniforms.lastBinding "height" = some (UniformValue.Float ((4 : Nat) : F32)))
      (group_by (fun e => e.shader.id) [sampleElementA, sampleElementB]) sampleDraws :=
  claim_C3.1 rasterTri 4 4 [sampleElementA, sampleElementB]
    (build_texture 4 4) sampleDraws rfl

/-- Witness for claim C9 at a concrete input: the caller's retained
uniform-buffer cell is unchanged by the composition. -/
theorem claim_C9_witness :
    Store.read sampleStOut 0 = Store.read sampleStore 0 :=
  (claim_C9 rasterTri 4 4 sampleStore [sampleElementR] sampleStOut
    (build_texture 4 4) sampleStDraws rfl).2.1 0 (by decide)

/-- Witness for claim C10 at a concrete input: two contiguous elements whose
shaders are clones of one shader produce a single draw. -/
theorem claim_C10_witness :
    sampleDrawsSame.length = 1 :=
  claim_C10.2.2.2 rasterTri 4 4 [sampleElementA, sampleElementA2]
    (build_texture 4 4) sampleDrawsSame 1 rfl (List.cons_ne_nil _ _) (by decide)

/-- Exact-arithmetic context for the f32 claims about `Point` (not a claim
theorem): over the rationals the coordinate maps are mutual inverses.  Under
IEEE-754 binary32 rounding this identity fails (for example
`fix_coord(2 ^ (-30))` evaluates `2 ^ (-29) - 1`, which rounds to `-1`, and
`restore_coord(-1) = 0`), which is why the f32 claims are not settled
against this exact model. -/
theorem fix_restore_coord_exact (c : F32) :
    Point.restore_coord (Point.fix_coord c) = c ∧
    Point.fix_coord (Point.restore_coord c) = c := by
  refine ⟨?_, ?_⟩ <;>
    simp only [Point.fix_coord, Point.restore_coord, Point.WORLD_FACTOR,
      Point.WORLD_OFFSET] <;>
    ring

/-- Exact-arithmetic context (not a claim theorem): `raw_distance(p, p) = 0`
and componentwise addition is commutative over the rationals. -/
theorem point_exact_laws (p q : Point) :
    Point.raw_distance p p = 0 ∧ Point.add p q = Point.add q p := by
  constructor
  · simp [Point.raw_distance, Point.sub]
  · simp [Point.add]
    constructor <;> ring
